import Mathlib

/-!
# vRA7 SDK client: request lifecycle and resource actions

A shallow embedding of `sdk/vra7_sdk.go`.  Every Go method of `*APIClient`
becomes a function that receives the transport calls issued so far and
returns the Go result together with the extended call log.  A Go result is
either the returned pair `(value, error)` or a run-time panic.
-/

set_option autoImplicit false

namespace Vra7

/-! ## Go values -/

/-- A Go `error` value, identified by its message. -/
abbrev GoError := String

/-- The two run-time panics the SDK code can raise. -/
inductive Panic where
  | nilDereference
  | typeAssertion
  deriving DecidableEq, Repr

/-- What a Go function of result type `(α, error)` does: it returns the pair, or
it panics. -/
inductive Outcome (α : Type) where
  | ret (value : α) (err : Option GoError)
  | panic (p : Panic)
  deriving DecidableEq, Repr

/-- A value held in an `interface{}` after JSON decoding: `nil`, `bool`,
`float64` (kept as its literal, never inspected here), `string`,
`[]interface{}` and `map[string]interface{}`. -/
inductive GoValue where
  | null
  | bool (b : Bool)
  | number (literal : String)
  | str (s : String)
  | array (items : List GoValue)
  | object (fields : List (String × GoValue))

/-- Indexing a `map[string]interface{}`: the bound value, or the zero value `nil`
when the key is absent. -/
def mapIndex (fields : List (String × GoValue)) (key : String) : GoValue :=
  match fields.lookup key with
  | some v => v
  | none => GoValue.null

/-- The type assertion `v.(string)`; `none` stands for the panic. -/
def assertString : GoValue → Option String
  | GoValue.str s => some s
  | _ => none

/-- The type assertion `v.([]interface{})`; `none` stands for the panic. -/
def assertArray : GoValue → Option (List GoValue)
  | GoValue.array items => some items
  | _ => none

/-- The type assertion `v.(map[string]interface{})`; `none` stands for the panic. -/
def assertMap : GoValue → Option (List (String × GoValue))
  | GoValue.object fields => some fields
  | _ => none

/-- The function `strconv.Itoa`: the decimal text of an integer. -/
def Itoa (i : Int) : String := toString i

/-! ## API constants -/

def CatalogService : String := "/catalog-service"
def CatalogServiceAPI : String := CatalogService ++ "/api"
def Consumer : String := CatalogServiceAPI ++ "/consumer"
def ConsumerRequests : String := Consumer ++ "/requests"
def ConsumerResources : String := Consumer ++ "/resources"
def EntitledCatalogItems : String := Consumer ++ "/entitledCatalogItems"
def EntitledCatalogItemViewsAPI : String := Consumer ++ "/entitledCatalogItemViews"

/-- The format `GetRequestResourcesAPI` applied to its one `%s` argument. -/
def GetRequestResourcesAPI (requestID : String) : String :=
  ConsumerRequests ++ "/" ++ requestID ++ "/resources"

/-- The format `ResourceActions` applied to its one `%s` argument. -/
def ResourceActions (resourceID : String) : String :=
  ConsumerResources ++ "/" ++ resourceID ++ "/actions"

/-- The format `PostActionTemplateAPI` applied to its two `%s` arguments. -/
def PostActionTemplateAPI (resourceID actionID : String) : String :=
  ResourceActions resourceID ++ "/" ++ actionID ++ "/requests"

/-- The format `GetRequestResourceViewAPI` applied to its one `%s` argument. -/
def GetRequestResourceViewAPI (requestID : String) : String :=
  ConsumerRequests ++ "/" ++ requestID ++ "/resourceViews"

/-! ## Types declared outside the given sources -/

/-- Modelled from the spec: the response type of the transport primitive is declared
outside the given sources; section 6 gives it as
`Response{StatusCode, Body, LocationHeader}`, and the code reads `StatusCode`,
`Body` and `Location`. -/
structure APIResponse where
  StatusCode : Int
  Body : String
  Location : String
  deriving DecidableEq, Repr

/-- One call made on the transport: a `Get` of a URL, or a `Post` of a buffer (`none`
is the nil buffer) to a URL. -/
inductive Call where
  | get (url : String)
  | post (url : String) (buffer : Option String)
  deriving DecidableEq, Repr

/-- Modelled from the spec: `APIClient` and its methods `BuildEncodedURL`, `Get` and
`Post` are declared outside the given sources; section 6 gives them as a URL builder
that appends query parameters onto a base path and a transport `Get(url, headers)`,
`Post(url, body, headers)`.  The code always passes `nil` headers.  Each transport
method returns Go's pair `(response pointer, error)` and may depend on the calls made
before it, which is how a backend with state is represented. -/
structure APIClient where
  BuildEncodedURL : String → List (String × String) → String
  Get : List Call → String → Option APIResponse × Option GoError
  Post : List Call → String → Option String → Option APIResponse × Option GoError

/-- Modelled from the spec: `Metadata` is declared outside the given sources; by
section 3 the total page count of a listing is read from the page metadata, and the
code reads the `int` field `TotalPages`. -/
structure Metadata where
  TotalPages : Int

/-- Modelled from the spec: `EntitledCatalogItemViews` is declared outside the given
sources; the code reads `Metadata.TotalPages` and the untyped `Content`. -/
structure EntitledCatalogItemViews where
  Content : GoValue
  Metadata : Metadata

/-- Modelled from the spec: `RequestResourceView` is declared outside the given
sources; by section 3 resources are listed as a paginated collection of entries with
the page count in the page metadata. -/
structure RequestResourceView where
  Content : List GoValue
  Metadata : Metadata

/-- Modelled from the spec: `Resources` is declared outside the given sources; by
section 3 resources are listed as a paginated collection of entries with the page
count in the page metadata. -/
structure Resources where
  Content : List GoValue
  Metadata : Metadata

/-- Modelled from the spec: `RequestResponse` is declared outside the given sources;
by section 4.5 the action collection is a sequence of untyped entries, which the
code ranges over as `Content`. -/
structure RequestResponse where
  Content : List GoValue

/-- Modelled from the spec: `Operation` is declared outside the given sources; by
section 3 an action has an identifier and a display name. -/
structure Operation where
  ID : String
  Name : String
  deriving DecidableEq, Repr

/-- Modelled from the spec: `CatalogItemRequestTemplate` is declared outside the given
sources; by section 3 a request template is a dynamically shaped document of which
the engine reads the catalog item id and passes the rest through. -/
structure CatalogItemRequestTemplate where
  CatalogItemID : String
  Data : GoValue

/-- Modelled from the spec: `CatalogRequest` is declared outside the given sources; by
section 4.2 it holds at least the new request id and the initial state. -/
structure CatalogRequest where
  ID : String
  State : String
  deriving DecidableEq, Repr

/-- Modelled from the spec: `ResourceActionTemplate` is declared outside the given
sources; by section 3 it is a dynamically shaped input document. -/
structure ResourceActionTemplate where
  Data : GoValue

/-- Modelled from the spec: the decoding primitive `utils.UnmarshalJSON` is declared
outside the given sources; section 6 gives it as `Unmarshal(bytes, targetShape) ->
error`.  At the target shape `α` it yields the decoded value, or the error. -/
abbrev Unmarshal (α : Type) := String → Except GoError α

/-- Modelled from the spec: the encoding primitive `utils.MarshalToJSON` is declared
outside the given sources; section 6 gives it as `Marshal(value) -> bytes`, and the
code receives Go's pair `(buffer, error)` from it, the buffer possibly nil. -/
abbrev Marshal (α : Type) := α → Option String × Option GoError

/-- The library function `mapstructure.Decode` at the target `Operation`: the decoded
action, or the error. -/
abbrev Decode := GoValue → Except GoError Operation

/-! ## Paginated catalog reader -/

/-- The URL of page `i` of the entitled catalog item views. -/
def catalogPageURL (c : APIClient) (i : Int) : String :=
  c.BuildEncodedURL EntitledCatalogItemViewsAPI [("page", Itoa i)]

/-- The method `readCatalogItemsByPage`.  When the transport reports no error and the
status is not 200 the Go code returns `nil, respErr`, that is `nil, nil`. -/
def readCatalogItemsByPage (unmarshal : Unmarshal EntitledCatalogItemViews)
    (c : APIClient) (h : List Call) (i : Int) :
    Outcome (Option EntitledCatalogItemViews) × List Call :=
  let url := catalogPageURL c i
  let h1 := h ++ [Call.get url]
  match c.Get h url with
  | (_, some respErr) => (Outcome.ret none (some respErr), h1)
  | (none, none) => (Outcome.panic Panic.nilDereference, h1)
  | (some resp, none) =>
    if resp.StatusCode ≠ 200 then (Outcome.ret none none, h1)
    else
      match unmarshal resp.Body with
      | Except.error unmarshallErr => (Outcome.ret none (some unmarshallErr), h1)
      | Except.ok template => (Outcome.ret (some template) none, h1)

/-- How the inner loop of `ReadCatalogItemByName` over one page ends. -/
inductive Scan where
  | found (id : String)
  | absent
  | panicked
  deriving DecidableEq, Repr

/-- The inner loop `for i := range catalogItemsArray` of `ReadCatalogItemByName`. -/
def scanItems (catalogName : String) : List GoValue → Scan
  | [] => Scan.absent
  | item :: rest =>
    match assertMap item with
    | none => Scan.panicked
    | some catalogItem =>
      match assertString (mapIndex catalogItem "name") with
      | none => Scan.panicked
      | some name =>
        if name = catalogName then
          match assertString (mapIndex catalogItem "catalogItemId") with
          | none => Scan.panicked
          | some id => Scan.found id
        else scanItems catalogName rest

/-- The error `fmt.Errorf("Catalog item, %s not found", catalogName)`. -/
def notFoundError (catalogName : String) : GoError :=
  "Catalog item, " ++ catalogName ++ " not found"

/-- The values `page` takes in `for page := 1; page <= total; page++`.  The counter
is a Go `int`; it cannot wrap before `2^63 - 1` iterations have run, so it is kept
as an unbounded integer. -/
def pageNumbers (total : Int) : List Int :=
  (List.range total.toNat).map (fun (k : Nat) => (k : Int) + 1)

/-- The outer loop of `ReadCatalogItemByName` over the pages still to visit, ending
in the not-found error when they are exhausted. -/
def scanPages (unmarshal : Unmarshal EntitledCatalogItemViews) (c : APIClient)
    (catalogName : String) : List Int → List Call → Outcome String × List Call
  | [], h => (Outcome.ret "" (some (notFoundError catalogName)), h)
  | page :: rest, h =>
    match readCatalogItemsByPage unmarshal c h page with
    | (Outcome.panic p, h1) => (Outcome.panic p, h1)
    | (Outcome.ret _ (some err), h1) => (Outcome.ret "" (some err), h1)
    | (Outcome.ret none none, h1) => (Outcome.panic Panic.nilDereference, h1)
    | (Outcome.ret (some entitledCatalogItemViews) none, h1) =>
      match assertArray entitledCatalogItemViews.Content with
      | none => (Outcome.panic Panic.typeAssertion, h1)
      | some catalogItemsArray =>
        match scanItems catalogName catalogItemsArray with
        | Scan.found id => (Outcome.ret id none, h1)
        | Scan.panicked => (Outcome.panic Panic.typeAssertion, h1)
        | Scan.absent => scanPages unmarshal c catalogName rest h1

/-- The method `ReadCatalogItemByName`: page 1 is read once for the page count, then
pages `1..TotalPages` are read again in turn and scanned for the name. -/
def ReadCatalogItemByName (unmarshal : Unmarshal EntitledCatalogItemViews)
    (c : APIClient) (h : List Call) (catalogName : String) : Outcome String × List Call :=
  match readCatalogItemsByPage unmarshal c h 1 with
  | (Outcome.panic p, h1) => (Outcome.panic p, h1)
  | (Outcome.ret _ (some err), h1) => (Outcome.ret "" (some err), h1)
  | (Outcome.ret none none, h1) => (Outcome.panic Panic.nilDereference, h1)
  | (Outcome.ret (some entitledCatalogItems) none, h1) =>
    scanPages unmarshal c catalogName
      (pageNumbers entitledCatalogItems.Metadata.TotalPages) h1

/-! ## Request submitter and resource enumerator -/

/-- The method `RequestCatalogItem`.  The error of `MarshalToJSON` is assigned to the
blank identifier. -/
def RequestCatalogItem (marshal : Marshal CatalogItemRequestTemplate)
    (unmarshal : Unmarshal CatalogRequest) (c : APIClient) (h : List Call)
    (requestTemplate : CatalogItemRequestTemplate) :
    Outcome (Option CatalogRequest) × List Call :=
  let path := EntitledCatalogItems ++ "/" ++ requestTemplate.CatalogItemID ++ "/requests"
  let buffer := (marshal requestTemplate).1
  let url := c.BuildEncodedURL path []
  let h1 := h ++ [Call.post url buffer]
  match c.Post h url buffer with
  | (_, some respErr) => (Outcome.ret none (some respErr), h1)
  | (none, none) => (Outcome.panic Panic.nilDereference, h1)
  | (some resp, none) =>
    match unmarshal resp.Body with
    | Except.error unmarshallErr => (Outcome.ret none (some unmarshallErr), h1)
    | Except.ok response => (Outcome.ret (some response) none, h1)

/-- The method `GetRequestResourceView`: one `Get` of the page `pageID`. -/
def GetRequestResourceView (unmarshal : Unmarshal RequestResourceView) (c : APIClient)
    (h : List Call) (catalogRequestID : String) (pageID : Int) :
    Outcome (Option RequestResourceView) × List Call :=
  let path := GetRequestResourceViewAPI catalogRequestID
  let queryParam := [("page", Itoa pageID)]
  let url := c.BuildEncodedURL path queryParam
  let h1 := h ++ [Call.get url]
  match c.Get h url with
  | (_, some respErr) => (Outcome.ret none (some respErr), h1)
  | (none, none) => (Outcome.panic Panic.nilDereference, h1)
  | (some resp, none) =>
    match unmarshal resp.Body with
    | Except.error unmarshallErr => (Outcome.ret none (some unmarshallErr), h1)
    | Except.ok response => (Outcome.ret (some response) none, h1)

/-- The method `GetRequestResources`: one `Get` with no query parameter. -/
def GetRequestResources (unmarshal : Unmarshal Resources) (c : APIClient)
    (h : List Call) (catalogItemRequestID : String) :
    Outcome (Option Resources) × List Call :=
  let path := GetRequestResourcesAPI catalogItemRequestID
  let url := c.BuildEncodedURL path []
  let h1 := h ++ [Call.get url]
  match c.Get h url with
  | (_, some respErr) => (Outcome.ret none (some respErr), h1)
  | (none, none) => (Outcome.panic Panic.nilDereference, h1)
  | (some resp, none) =>
    match unmarshal resp.Body with
    | Except.error unmarshallErr => (Outcome.ret none (some unmarshallErr), h1)
    | Except.ok requestResources => (Outcome.ret (some requestResources) none, h1)

/-! ## Action catalog and action template engine -/

/-- The loop of `GetResourceActions` over the entries still to decode, `resourceActions`
holding the actions appended so far; the nil slice is the empty list. -/
def decodeActions (decode : Decode) : List GoValue → List Operation → Outcome (List Operation)
  | [], resourceActions => Outcome.ret resourceActions none
  | item :: rest, resourceActions =>
    match decode item with
    | Except.error err => Outcome.ret [] (some err)
    | Except.ok action => decodeActions decode rest (resourceActions ++ [action])

/-- The method `GetResourceActions`. -/
def GetResourceActions (unmarshal : Unmarshal RequestResponse) (decode : Decode)
    (c : APIClient) (h : List Call) (resourceID : String) :
    Outcome (List Operation) × List Call :=
  let path := ResourceActions resourceID
  let url := c.BuildEncodedURL path []
  let h1 := h ++ [Call.get url]
  match c.Get h url with
  | (_, some respErr) => (Outcome.ret [] (some respErr), h1)
  | (none, none) => (Outcome.panic Panic.nilDereference, h1)
  | (some resp, none) =>
    match unmarshal resp.Body with
    | Except.error unmarshallErr => (Outcome.ret [] (some unmarshallErr), h1)
    | Except.ok reqResponse => (decodeActions decode reqResponse.Content [], h1)

/-- The position of the last `sep` among the characters, if there is one. -/
def lastIndexAux (sep : Char) : List Char → Option Nat
  | [] => none
  | ch :: rest =>
    match lastIndexAux sep rest with
    | some j => some (j + 1)
    | none => if ch = sep then some 0 else none

/-- The function `strings.LastIndex` for a separator of one character: the index of
its last occurrence, or `-1`.  The code only passes `"/"`, a single byte that is
never part of a longer UTF-8 sequence, so byte and character positions slice the
string at the same places. -/
def LastIndex (s : String) (sep : Char) : Int :=
  match lastIndexAux sep s.data with
  | some j => (j : Int)
  | none => -1

/-- The slice expression `s[from:]` for `0 <= from <= len(s)`. -/
def sliceFrom (s : String) (start : Int) : String :=
  String.mk (s.data.drop start.toNat)

/-- The method `PostResourceAction`.  The error of `MarshalToJSON` is assigned to the
blank identifier; when the transport reports no error and the status is not 201 the
Go code returns `"", respErr`, that is `"", nil`. -/
def PostResourceAction (marshal : Marshal ResourceActionTemplate) (c : APIClient)
    (h : List Call) (resourceID actionID : String)
    (resourceActionTemplate : ResourceActionTemplate) : Outcome String × List Call :=
  let postActionTemplatePath := PostActionTemplateAPI resourceID actionID
  let buffer := (marshal resourceActionTemplate).1
  let url := c.BuildEncodedURL postActionTemplatePath []
  let h1 := h ++ [Call.post url buffer]
  match c.Post h url buffer with
  | (_, some respErr) => (Outcome.ret "" (some respErr), h1)
  | (none, none) => (Outcome.panic Panic.nilDereference, h1)
  | (some resp, none) =>
    if resp.StatusCode ≠ 201 then (Outcome.ret "" none, h1)
    else
      let requestURL := resp.Location
      let i := LastIndex requestURL '/'
      let requestID := sliceFrom requestURL (i + 1)
      (Outcome.ret requestID none, h1)

/-! ## Vocabulary of the statements about the catalog reader -/

/-- The `name` of a catalog entry, when the entry is a map holding a string there. -/
def entryName (item : GoValue) : Option String :=
  match assertMap item with
  | none => none
  | some fields => assertString (mapIndex fields "name")

/-- The `catalogItemId` of a catalog entry, when the entry is a map holding a string
there. -/
def entryID (item : GoValue) : Option String :=
  match assertMap item with
  | none => none
  | some fields => assertString (mapIndex fields "catalogItemId")

/-- A well-formed catalog entry: a map with a string `name` and a string
`catalogItemId`. -/
def WellFormedEntry (item : GoValue) : Prop :=
  (∃ name, entryName item = some name) ∧ (∃ id, entryID item = some id)

/-- Whether the `name` of the entry is exactly `catalogName`. -/
def hasName (catalogName : String) (item : GoValue) : Bool :=
  entryName item == some catalogName

/-- The entries of pages `1..N` in ascending page order and, within a page, in
ascending index order. -/
def allEntries (content : Int → List GoValue) (N : Int) : List GoValue :=
  (pageNumbers N).flatMap content

/-- The transport call that fetches page `i` of the catalog. -/
def catalogFetch (c : APIClient) (i : Int) : Call :=
  Call.get (catalogPageURL c i)

/-- A backend in which every page fetch succeeds with well-formed content: after the
calls `h` the first fetch of page 1 reports `TotalPages = N`, and at any time a fetch
of page `i` in `1..N` is answered with status 200 and a body that decodes to the
entries `content i`, all of them well formed.  The page count reported by any fetch
but the first is left free. -/
structure Serves (unmarshal : Unmarshal EntitledCatalogItemViews) (c : APIClient)
    (h : List Call) (N : Int) (content : Int → List GoValue) : Prop where
  first : ∃ resp views, c.Get h (catalogPageURL c 1) = (some resp, none) ∧
    resp.StatusCode = 200 ∧ unmarshal resp.Body = Except.ok views ∧
    views.Metadata.TotalPages = N
  page : ∀ (h1 : List Call) (i : Int), 1 ≤ i → i ≤ N →
    ∃ resp views, c.Get h1 (catalogPageURL c i) = (some resp, none) ∧
      resp.StatusCode = 200 ∧ unmarshal resp.Body = Except.ok views ∧
      views.Content = GoValue.array (content i)
  wellFormed : ∀ (i : Int), 1 ≤ i → i ≤ N → ∀ item ∈ content i, WellFormedEntry item

/-- The first page of `pages` holding an entry named `catalogName`, as its position in
`pages`, with the first such entry of that page. -/
def firstHit (catalogName : String) (content : Int → List GoValue) :
    List Int → Option (Nat × GoValue)
  | [] => none
  | p :: ps =>
    match (content p).find? (hasName catalogName) with
    | some item => some (0, item)
    | none =>
      match firstHit catalogName content ps with
      | some (k, item) => some (k + 1, item)
      | none => none

/-! ## A concrete backend

A small catalog of two pages behind a transport that answers by URL, used to
evaluate the functions above on concrete inputs. -/

/-- A URL builder that appends the query parameters to the path as
`?key=value&key=value`, and leaves a path with no parameter as it is. -/
def demoBuildEncodedURL (path : String) (params : List (String × String)) : String :=
  match params with
  | [] => path
  | _ => path ++ "?" ++ "&".intercalate (params.map (fun kv => kv.1 ++ "=" ++ kv.2))

/-- A catalog entry with the given `name` and `catalogItemId`. -/
def demoEntry (name id : String) : GoValue :=
  GoValue.object [("catalogItemId", GoValue.str id), ("name", GoValue.str name)]

/-- The entries of the two catalog pages; `ubuntu` is listed on both. -/
def demoContent (i : Int) : List GoValue :=
  if i = 1 then [demoEntry "centos" "id-centos", demoEntry "ubuntu" "id-ubuntu-1"]
  else if i = 2 then [demoEntry "ubuntu" "id-ubuntu-2", demoEntry "windows" "id-windows"]
  else []

/-- Decoding of the two page bodies: page 1 reports two pages in all, page 2 reports
seven. -/
def demoUnmarshalViews : Unmarshal EntitledCatalogItemViews := fun body =>
  if body = "page1" then Except.ok ⟨GoValue.array (demoContent 1), ⟨2⟩⟩
  else if body = "page2" then Except.ok ⟨GoValue.array (demoContent 2), ⟨7⟩⟩
  else Except.error "invalid character"

/-- A transport serving the two catalog pages with status 200, whatever was called
before. -/
def demoClient : APIClient where
  BuildEncodedURL := demoBuildEncodedURL
  Get := fun _ url =>
    if url = "/catalog-service/api/consumer/entitledCatalogItemViews?page=1" then
      (some ⟨200, "page1", ""⟩, none)
    else if url = "/catalog-service/api/consumer/entitledCatalogItemViews?page=2" then
      (some ⟨200, "page2", ""⟩, none)
    else (none, some "404 Not Found")
  Post := fun _ _ _ => (none, some "405 Method Not Allowed")

/-- The transport of `demoClient`, except that page 1 is answered with the status
`status1` and page 2 with the status `status2`; the transport itself reports no
error. -/
def statusClient (status1 status2 : Int) : APIClient where
  BuildEncodedURL := demoBuildEncodedURL
  Get := fun _ url =>
    if url = "/catalog-service/api/consumer/entitledCatalogItemViews?page=1" then
      (some ⟨status1, "page1", ""⟩, none)
    else if url = "/catalog-service/api/consumer/entitledCatalogItemViews?page=2" then
      (some ⟨status2, "page2", ""⟩, none)
    else (none, some "404 Not Found")
  Post := fun _ _ _ => (none, some "405 Method Not Allowed")

/-- A decoder that yields a single page whose `Content` is the given value. -/
def shapeUnmarshalViews (content : GoValue) : Unmarshal EntitledCatalogItemViews :=
  fun _ => Except.ok ⟨content, ⟨1⟩⟩

/-- A transport whose `Post` is answered, with no transport error, by the given status
and `Location`. -/
def postClient (status : Int) (location : String) : APIClient where
  BuildEncodedURL := demoBuildEncodedURL
  Get := fun _ _ => (none, some "405 Method Not Allowed")
  Post := fun _ _ _ => (some ⟨status, "", location⟩, none)

/-- An encoder that succeeds on every action template. -/
def demoMarshalAction : Marshal ResourceActionTemplate :=
  fun _ => (some "\x7b\x7d", none)

/-- An action template with no field. -/
def demoActionTemplate : ResourceActionTemplate := ⟨GoValue.object []⟩

/-- An action entry with the given `id` and `name`. -/
def demoAction (id name : String) : GoValue :=
  GoValue.object [("id", GoValue.str id), ("name", GoValue.str name)]

/-- A decoder of action entries: a map with a string `id` and a string `name` decodes,
anything else is an error. -/
def demoDecode : Decode := fun item =>
  match assertMap item with
  | none => Except.error "expected a map"
  | some fields =>
    match assertString (mapIndex fields "id"), assertString (mapIndex fields "name") with
    | some id, some name => Except.ok ⟨id, name⟩
    | _, _ => Except.error "expected type string"

/-- Decoding of two action collections: `actions` holds two well-formed entries,
`mixed` holds a well-formed entry, then a bare string, then a well-formed entry. -/
def demoUnmarshalActions : Unmarshal RequestResponse := fun body =>
  if body = "actions" then
    Except.ok ⟨[demoAction "a-1" "Destroy", demoAction "a-2" "Reconfigure"]⟩
  else if body = "mixed" then
    Except.ok ⟨[demoAction "a-1" "Destroy", GoValue.str "Reconfigure",
      demoAction "a-3" "Scale Out"]⟩
  else Except.error "invalid character"

/-- A transport whose `Get` is answered, with no transport error, by status 200 and the
given body. -/
def bodyClient (body : String) : APIClient where
  BuildEncodedURL := demoBuildEncodedURL
  Get := fun _ _ => (some ⟨200, body, ""⟩, none)
  Post := fun _ _ _ => (none, some "405 Method Not Allowed")

/-- An encoder that fails on every request template, returning the nil buffer. -/
def failingMarshalRequest : Marshal CatalogItemRequestTemplate :=
  fun _ => (none, some "json: unsupported value")

/-- Decoding of the body `created` into a submitted request. -/
def demoUnmarshalRequest : Unmarshal CatalogRequest := fun body =>
  if body = "created" then Except.ok ⟨"req-1", "SUBMITTED"⟩
  else Except.error "invalid character"

/-- A transport whose `Post` is answered, with no transport error, by status 201 and the
body `created`. -/
def submitClient : APIClient where
  BuildEncodedURL := demoBuildEncodedURL
  Get := fun _ _ => (none, some "405 Method Not Allowed")
  Post := fun _ _ _ => (some ⟨201, "created", ""⟩, none)

/-- A request template whose `CatalogItemID` is empty. -/
def emptyTemplate : CatalogItemRequestTemplate := ⟨"", GoValue.object []⟩

/-- A resource entry with the given id. -/
def demoResource (id : String) : GoValue :=
  GoValue.object [("resourceId", GoValue.str id)]

/-- The entries of a resource listing of two pages, one resource on each. -/
def demoResourcePages (i : Int) : List GoValue :=
  if i = 1 then [demoResource "res-1"]
  else if i = 2 then [demoResource "res-2"]
  else []

/-- Decoding of the two resource view pages, each reporting two pages in all. -/
def demoUnmarshalResourceView : Unmarshal RequestResourceView := fun body =>
  if body = "page1" then Except.ok ⟨demoResourcePages 1, ⟨2⟩⟩
  else if body = "page2" then Except.ok ⟨demoResourcePages 2, ⟨2⟩⟩
  else Except.error "invalid character"

/-- Decoding of the two resource pages, each reporting two pages in all. -/
def demoUnmarshalResources : Unmarshal Resources := fun body =>
  if body = "page1" then Except.ok ⟨demoResourcePages 1, ⟨2⟩⟩
  else if body = "page2" then Except.ok ⟨demoResourcePages 2, ⟨2⟩⟩
  else Except.error "invalid character"

/-- A transport serving the resource listing of request `req-1` in two pages, under
`resourceViews` and under `resources`; a URL with no page parameter is answered with
page 1. -/
def resourceClient : APIClient where
  BuildEncodedURL := demoBuildEncodedURL
  Get := fun _ url =>
    if url = "/catalog-service/api/consumer/requests/req-1/resourceViews?page=1" then
      (some ⟨200, "page1", ""⟩, none)
    else if url = "/catalog-service/api/consumer/requests/req-1/resourceViews?page=2" then
      (some ⟨200, "page2", ""⟩, none)
    else if url = "/catalog-service/api/consumer/requests/req-1/resources" then
      (some ⟨200, "page1", ""⟩, none)
    else if url = "/catalog-service/api/consumer/requests/req-1/resources?page=2" then
      (some ⟨200, "page2", ""⟩, none)
    else (none, some "404 Not Found")
  Post := fun _ _ _ => (none, some "405 Method Not Allowed")

/-! ## Lemmas on the catalog reader -/

theorem readCatalogItemsByPage_ok (unmarshal : Unmarshal EntitledCatalogItemViews)
    (c : APIClient) (h : List Call) (i : Int) (resp : APIResponse)
    (views : EntitledCatalogItemViews)
    (hget : c.Get h (catalogPageURL c i) = (some resp, none))
    (hstatus : resp.StatusCode = 200) (hbody : unmarshal resp.Body = Except.ok views) :
    readCatalogItemsByPage unmarshal c h i
      = (Outcome.ret (some views) none, h ++ [catalogFetch c i]) := by
  simp [readCatalogItemsByPage, hget, hstatus, hbody, catalogFetch]

theorem scanItems_wellFormed (catalogName : String) (items : List GoValue)
    (hwf : ∀ item ∈ items, WellFormedEntry item) :
    scanItems catalogName items =
      match items.find? (hasName catalogName) with
      | some item => Scan.found ((entryID item).getD "")
      | none => Scan.absent := by
  induction items with
  | nil => simp [scanItems]
  | cons item rest ih =>
    have hrest : ∀ x ∈ rest, WellFormedEntry x := fun x hx =>
      hwf x (List.mem_cons_of_mem _ hx)
    obtain ⟨⟨name, hname⟩, ⟨id, hid⟩⟩ := hwf item (List.mem_cons_self _ _)
    cases hmap : assertMap item with
    | none => simp [entryName, hmap] at hname
    | some fields =>
      simp only [entryName, hmap] at hname
      simp only [entryID, hmap] at hid
      by_cases heq : name = catalogName
      · have hhas : hasName catalogName item = true := by
          simp [hasName, entryName, hmap, hname, heq]
        simp [scanItems, hmap, hname, hid, heq, List.find?_cons, hhas, entryID]
      · have hhas : hasName catalogName item = false := by
          simp [hasName, entryName, hmap, hname, heq]
        simp [scanItems, hmap, hname, heq, List.find?_cons, hhas, ih hrest]

theorem scanPages_serves (unmarshal : Unmarshal EntitledCatalogItemViews) (c : APIClient)
    (catalogName : String) (content : Int → List GoValue) (ps : List Int)
    (hpage : ∀ (h1 : List Call) (p : Int), p ∈ ps →
      ∃ resp views, c.Get h1 (catalogPageURL c p) = (some resp, none) ∧
        resp.StatusCode = 200 ∧ unmarshal resp.Body = Except.ok views ∧
        views.Content = GoValue.array (content p))
    (hwf : ∀ p ∈ ps, ∀ item ∈ content p, WellFormedEntry item) (h : List Call) :
    scanPages unmarshal c catalogName ps h =
      match firstHit catalogName content ps with
      | some (k, item) =>
        (Outcome.ret ((entryID item).getD "") none,
          h ++ (ps.take (k + 1)).map (catalogFetch c))
      | none =>
        (Outcome.ret "" (some (notFoundError catalogName)), h ++ ps.map (catalogFetch c)) := by
  induction ps generalizing h with
  | nil => simp [scanPages, firstHit]
  | cons p rest ih =>
    obtain ⟨resp, views, hget, hstatus, hbody, hcontent⟩ := hpage h p (List.mem_cons_self _ _)
    have hrest := ih (fun h1 q hq => hpage h1 q (List.mem_cons_of_mem _ hq))
      (fun q hq => hwf q (List.mem_cons_of_mem _ hq))
    have hitems := scanItems_wellFormed catalogName (content p)
      (hwf p (List.mem_cons_self _ _))
    rw [scanPages, readCatalogItemsByPage_ok unmarshal c h p resp views hget hstatus hbody]
    simp only [hcontent, assertArray]
    cases hfind : (content p).find? (hasName catalogName) with
    | some item =>
      rw [hfind] at hitems
      simp [hitems, firstHit, hfind]
    | none =>
      rw [hfind] at hitems
      simp only [hitems, firstHit, hfind]
      rw [hrest]
      cases hhit : firstHit catalogName content rest with
      | none => simp
      | some hit =>
        obtain ⟨k, item⟩ := hit
        simp

theorem firstHit_eq_none (catalogName : String) (content : Int → List GoValue)
    (ps : List Int) :
    firstHit catalogName content ps = none ↔
      ∀ p ∈ ps, ∀ item ∈ content p, hasName catalogName item = false := by
  induction ps with
  | nil => simp [firstHit]
  | cons p rest ih =>
    cases hfind : (content p).find? (hasName catalogName) with
    | some item =>
      have hmem := List.mem_of_find?_eq_some hfind
      have hp := List.find?_some hfind
      simp only [firstHit, hfind, List.mem_cons, forall_eq_or_imp]
      constructor
      · intro hsome
        cases hsome
      · rintro ⟨hall, _⟩
        have := hall item hmem
        simp [hp] at this
    | none =>
      have hnone := List.find?_eq_none.mp hfind
      cases hhit : firstHit catalogName content rest with
      | none =>
        have := ih.mp hhit
        simp only [firstHit, hfind, hhit, List.mem_cons, forall_eq_or_imp, true_iff]
        exact ⟨fun item hitem => by simpa using hnone item hitem, this⟩
      | some hit =>
        have hne : ¬ ∀ q ∈ rest, ∀ item ∈ content q, hasName catalogName item = false := by
          intro hall
          rw [ih.mpr hall] at hhit
          cases hhit
        simp only [firstHit, hfind, hhit, List.mem_cons, forall_eq_or_imp]
        constructor
        · intro hsome
          cases hsome
        · rintro ⟨_, hall⟩
          exact absurd hall hne

theorem firstHit_eq_some (catalogName : String) (content : Int → List GoValue)
    (ps : List Int) (k : Nat) (item : GoValue)
    (hhit : firstHit catalogName content ps = some (k, item)) :
    ∃ p, ps[k]? = some p ∧ (content p).find? (hasName catalogName) = some item ∧
      ∀ j q, j < k → ps[j]? = some q → ∀ x ∈ content q, hasName catalogName x = false := by
  induction ps generalizing k with
  | nil => simp [firstHit] at hhit
  | cons p rest ih =>
    cases hfind : (content p).find? (hasName catalogName) with
    | some found =>
      simp only [firstHit, hfind, Option.some.injEq, Prod.mk.injEq] at hhit
      obtain ⟨rfl, rfl⟩ := hhit
      exact ⟨p, by simp, hfind, fun j q hj => absurd hj (Nat.not_lt_zero j)⟩
    | none =>
      have hnone := List.find?_eq_none.mp hfind
      cases hrest : firstHit catalogName content rest with
      | none => simp [firstHit, hfind, hrest] at hhit
      | some hit =>
        obtain ⟨k1, item1⟩ := hit
        simp only [firstHit, hfind, hrest, Option.some.injEq, Prod.mk.injEq] at hhit
        obtain ⟨rfl, rfl⟩ := hhit
        obtain ⟨q, hq, hfound, hbefore⟩ := ih k1 hrest
        refine ⟨q, by simpa using hq, hfound, ?_⟩
        intro j r hj hr x hx
        cases j with
        | zero =>
          simp only [List.getElem?_cons_zero, Option.some.injEq] at hr
          subst hr
          simpa using hnone x hx
        | succ j1 =>
          simp only [List.getElem?_cons_succ] at hr
          exact hbefore j1 r (by omega) hr x hx

theorem find_allEntries (catalogName : String) (content : Int → List GoValue)
    (ps : List Int) :
    (ps.flatMap content).find? (hasName catalogName)
      = (firstHit catalogName content ps).map Prod.snd := by
  induction ps with
  | nil => simp [firstHit]
  | cons p rest ih =>
    rw [List.flatMap_cons, List.find?_append, ih]
    cases hfind : (content p).find? (hasName catalogName) with
    | some found => simp [firstHit, hfind]
    | none =>
      cases hrest : firstHit catalogName content rest with
      | none => simp [firstHit, hfind, hrest]
      | some hit => simp [firstHit, hfind, hrest]

theorem mem_pageNumbers (N p : Int) : p ∈ pageNumbers N ↔ 1 ≤ p ∧ p ≤ N := by
  unfold pageNumbers
  constructor
  · intro hp
    obtain ⟨k, hk, rfl⟩ := List.mem_map.mp hp
    have := List.mem_range.mp hk
    omega
  · intro hp
    exact List.mem_map.mpr ⟨(p - 1).toNat, List.mem_range.mpr (by omega), by omega⟩

theorem pageNumbers_getElem? (N : Int) (j : Nat) (p : Int)
    (hp : (pageNumbers N)[j]? = some p) : p = (j : Int) + 1 ∧ (j : Int) + 1 ≤ N := by
  obtain ⟨hlt, hget⟩ := List.getElem?_eq_some.mp hp
  unfold pageNumbers at hlt hget
  rw [List.getElem_map, List.getElem_range] at hget
  rw [List.length_map, List.length_range] at hlt
  omega

theorem take_pageNumbers (N : Int) (k : Nat) (hk : (k : Int) ≤ N) :
    (pageNumbers N).take k = pageNumbers k := by
  unfold pageNumbers
  rw [← List.map_take, List.take_range]
  congr 2
  simp
  omega

theorem pageNumbers_getElem?_of_le (N : Int) (j : Nat) (hj : (j : Int) + 1 ≤ N) :
    (pageNumbers N)[j]? = some ((j : Int) + 1) := by
  unfold pageNumbers
  rw [List.getElem?_map, List.getElem?_range (by omega)]
  rfl

theorem pageNumbers_length (N : Int) : (pageNumbers N).length = N.toNat := by
  simp [pageNumbers]

theorem hasName_eq_true (catalogName : String) (item : GoValue) :
    hasName catalogName item = true ↔ entryName item = some catalogName := by
  simp [hasName]

theorem hasName_eq_false (catalogName : String) (item : GoValue) :
    hasName catalogName item = false ↔ entryName item ≠ some catalogName := by
  simp [hasName]

theorem ReadCatalogItemByName_serves (unmarshal : Unmarshal EntitledCatalogItemViews)
    (c : APIClient) (h : List Call) (N : Int) (content : Int → List GoValue)
    (catalogName : String) (hs : Serves unmarshal c h N content) :
    ReadCatalogItemByName unmarshal c h catalogName =
      match firstHit catalogName content (pageNumbers N) with
      | some (k, item) =>
        (Outcome.ret ((entryID item).getD "") none,
          (h ++ [catalogFetch c 1]) ++ ((pageNumbers N).take (k + 1)).map (catalogFetch c))
      | none =>
        (Outcome.ret "" (some (notFoundError catalogName)),
          (h ++ [catalogFetch c 1]) ++ (pageNumbers N).map (catalogFetch c)) := by
  obtain ⟨resp, views, hget, hstatus, hbody, htotal⟩ := hs.first
  rw [ReadCatalogItemByName,
    readCatalogItemsByPage_ok unmarshal c h 1 resp views hget hstatus hbody]
  simp only [htotal]
  exact scanPages_serves unmarshal c catalogName content (pageNumbers N)
    (fun h1 p hp => hs.page h1 p ((mem_pageNumbers N p).mp hp).1 ((mem_pageNumbers N p).mp hp).2)
    (fun p hp => hs.wellFormed p ((mem_pageNumbers N p).mp hp).1 ((mem_pageNumbers N p).mp hp).2)
    (h ++ [catalogFetch c 1])

theorem demo_serves : Serves demoUnmarshalViews demoClient [] 2 demoContent where
  first := ⟨⟨200, "page1", ""⟩, ⟨GoValue.array (demoContent 1), ⟨2⟩⟩, rfl, rfl, rfl, rfl⟩
  page := by
    intro h1 i hlo hhi
    obtain rfl | rfl : i = 1 ∨ i = 2 := by omega
    · exact ⟨⟨200, "page1", ""⟩, ⟨GoValue.array (demoContent 1), ⟨2⟩⟩, rfl, rfl, rfl, rfl⟩
    · exact ⟨⟨200, "page2", ""⟩, ⟨GoValue.array (demoContent 2), ⟨7⟩⟩, rfl, rfl, rfl, rfl⟩
  wellFormed := by
    intro i hlo hhi item hitem
    obtain rfl | rfl : i = 1 ∨ i = 2 := by omega
    · simp only [demoContent, List.mem_cons, List.mem_singleton, if_true] at hitem
      rcases hitem with rfl | rfl | hnil
      · exact ⟨⟨_, rfl⟩, ⟨_, rfl⟩⟩
      · exact ⟨⟨_, rfl⟩, ⟨_, rfl⟩⟩
      · cases hnil
    · have h21 : ¬ ((2 : Int) = 1) := by decide
      simp only [demoContent, h21, if_false, if_true, List.mem_cons] at hitem
      rcases hitem with rfl | rfl | hnil
      · exact ⟨⟨_, rfl⟩, ⟨_, rfl⟩⟩
      · exact ⟨⟨_, rfl⟩, ⟨_, rfl⟩⟩
      · cases hnil

/-! ## Claims on the catalog reader -/

/-- Claim C1.  In a backend where every page fetch succeeds with well-formed content
and the first fetch of page 1 reports `TotalPages = N`, if some entry on the pages
`1..N` has a `name` equal to the requested one, `ReadCatalogItemByName` returns, with a
nil error, the `catalogItemId` of the first such entry in ascending page order and,
within a page, ascending index order. -/
theorem ReadCatalogItemByName_returns_first_match
    (unmarshal : Unmarshal EntitledCatalogItemViews) (c : APIClient) (h : List Call)
    (N : Int) (content : Int → List GoValue) (catalogName : String)
    (hs : Serves unmarshal c h N content)
    (hex : ∃ i, 1 ≤ i ∧ i ≤ N ∧ ∃ item ∈ content i, entryName item = some catalogName) :
    ∃ item id, (allEntries content N).find? (hasName catalogName) = some item ∧
      entryID item = some id ∧
      (ReadCatalogItemByName unmarshal c h catalogName).1 = Outcome.ret id none := by
  obtain ⟨i, hlo, hhi, x, hx, hxname⟩ := hex
  have hrun := ReadCatalogItemByName_serves unmarshal c h N content catalogName hs
  cases hhit : firstHit catalogName content (pageNumbers N) with
  | none =>
    have hall := (firstHit_eq_none catalogName content (pageNumbers N)).mp hhit
    have hfalse := hall i ((mem_pageNumbers N i).mpr ⟨hlo, hhi⟩) x hx
    rw [(hasName_eq_true catalogName x).mpr hxname] at hfalse
    cases hfalse
  | some hit =>
    obtain ⟨k, item⟩ := hit
    obtain ⟨p, hp, hfind, _⟩ := firstHit_eq_some catalogName content (pageNumbers N) k item hhit
    obtain ⟨hpk, hpN⟩ := pageNumbers_getElem? N k p hp
    have hmem : item ∈ content p := List.mem_of_find?_eq_some hfind
    obtain ⟨_, ⟨id, hid⟩⟩ := hs.wellFormed p (by omega) (by omega) item hmem
    refine ⟨item, id, ?_, hid, ?_⟩
    · rw [allEntries, find_allEntries, hhit]
      rfl
    · rw [hrun, hhit]
      simp [hid]

/-- Claim C2.  In a backend where every page fetch succeeds with well-formed content
and the first fetch of page 1 reports `TotalPages = N`, `ReadCatalogItemByName` returns
the empty id with the error `Catalog item, <name> not found` if and only if no entry on
any page `1..N` has a `name` equal to the requested one. -/
theorem ReadCatalogItemByName_notFound_iff
    (unmarshal : Unmarshal EntitledCatalogItemViews) (c : APIClient) (h : List Call)
    (N : Int) (content : Int → List GoValue) (catalogName : String)
    (hs : Serves unmarshal c h N content) :
    (ReadCatalogItemByName unmarshal c h catalogName).1
        = Outcome.ret "" (some (notFoundError catalogName)) ↔
      ∀ i, 1 ≤ i → i ≤ N → ∀ item ∈ content i, entryName item ≠ some catalogName := by
  have hrun := ReadCatalogItemByName_serves unmarshal c h N content catalogName hs
  cases hhit : firstHit catalogName content (pageNumbers N) with
  | none =>
    have hall := (firstHit_eq_none catalogName content (pageNumbers N)).mp hhit
    rw [hrun, hhit]
    simp only [true_iff]
    intro i hlo hhi item hitem
    exact (hasName_eq_false catalogName item).mp
      (hall i ((mem_pageNumbers N i).mpr ⟨hlo, hhi⟩) item hitem)
  | some hit =>
    obtain ⟨k, item⟩ := hit
    obtain ⟨p, hp, hfind, _⟩ := firstHit_eq_some catalogName content (pageNumbers N) k item hhit
    obtain ⟨hpk, hpN⟩ := pageNumbers_getElem? N k p hp
    have hmem : item ∈ content p := List.mem_of_find?_eq_some hfind
    have hname := (hasName_eq_true catalogName item).mp (List.find?_some hfind)
    rw [hrun, hhit]
    constructor
    · intro hret
      simp at hret
    · intro hall
      exact absurd hname (hall p (by omega) (by omega) item hmem)

/-- Claim C9.  The enumeration bound of `ReadCatalogItemByName` is fixed by the first
fetch.  When the first fetch of page 1 reports `TotalPages = N` and every fetch
succeeds with well-formed content, whatever page count the later fetches report, the
calls made are the fetch of page 1 followed by the fetches of pages `1, 2, ..., k`,
where either `k` is the page of the first match, or there is no match on the pages
`1..N`, `k` is `N` (zero when `N` is not positive) and the result is the not-found
error.  With `N <= 0` the only call is the first fetch and the result is not-found. -/
theorem ReadCatalogItemByName_fetch_sequence
    (unmarshal : Unmarshal EntitledCatalogItemViews) (c : APIClient) (h : List Call)
    (N : Int) (content : Int → List GoValue) (catalogName : String)
    (hs : Serves unmarshal c h N content) :
    (∃ k : Nat,
      (ReadCatalogItemByName unmarshal c h catalogName).2
        = h ++ catalogFetch c 1 :: (pageNumbers k).map (catalogFetch c) ∧
      ((1 ≤ k ∧ (k : Int) ≤ N ∧
          (∀ i : Int, 1 ≤ i → i < k → ∀ item ∈ content i, entryName item ≠ some catalogName) ∧
          ∃ item ∈ content k, entryName item = some catalogName) ∨
        (k = N.toNat ∧
          (∀ i : Int, 1 ≤ i → i ≤ N → ∀ item ∈ content i, entryName item ≠ some catalogName) ∧
          (ReadCatalogItemByName unmarshal c h catalogName).1
            = Outcome.ret "" (some (notFoundError catalogName))))) ∧
    (N ≤ 0 →
      ReadCatalogItemByName unmarshal c h catalogName
        = (Outcome.ret "" (some (notFoundError catalogName)), h ++ [catalogFetch c 1])) := by
  have hrun := ReadCatalogItemByName_serves unmarshal c h N content catalogName hs
  constructor
  · cases hhit : firstHit catalogName content (pageNumbers N) with
    | none =>
      have hall := (firstHit_eq_none catalogName content (pageNumbers N)).mp hhit
      refine ⟨N.toNat, ?_, Or.inr ⟨rfl, ?_, ?_⟩⟩
      · rw [hrun, hhit]
        have hpages : pageNumbers (N.toNat : Int) = pageNumbers N := by
          unfold pageNumbers
          rw [Int.toNat_ofNat]
        rw [hpages]
        simp
      · intro i hlo hhi item hitem
        exact (hasName_eq_false catalogName item).mp
          (hall i ((mem_pageNumbers N i).mpr ⟨hlo, hhi⟩) item hitem)
      · rw [hrun, hhit]
    | some hit =>
      obtain ⟨k, item⟩ := hit
      obtain ⟨p, hp, hfind, hbefore⟩ :=
        firstHit_eq_some catalogName content (pageNumbers N) k item hhit
      obtain ⟨hpk, hpN⟩ := pageNumbers_getElem? N k p hp
      have hmem : item ∈ content p := List.mem_of_find?_eq_some hfind
      have hname := (hasName_eq_true catalogName item).mp (List.find?_some hfind)
      have hcast : ((k + 1 : Nat) : Int) = p := by omega
      refine ⟨k + 1, ?_, Or.inl ⟨by omega, by omega, ?_, ?_⟩⟩
      · rw [hrun, hhit]
        simp only []
        rw [take_pageNumbers N (k + 1) (by omega)]
        simp
      · intro i hlo hhi x hx
        have hj : (pageNumbers N)[(i - 1).toNat]? = some i := by
          have := pageNumbers_getElem?_of_le N (i - 1).toNat (by omega)
          rw [this]
          congr 1
          omega
        exact (hasName_eq_false catalogName x).mp
          (hbefore (i - 1).toNat i (by omega) hj x hx)
      · rw [hcast]
        exact ⟨item, hmem, hname⟩
  · intro hN
    have hnil : pageNumbers N = [] := by
      have : N.toNat = 0 := by omega
      simp [pageNumbers, this]
    rw [hrun, hnil]
    simp [firstHit]

theorem ReadCatalogItemByName_returns_first_match_witness :
    Serves demoUnmarshalViews demoClient [] 2 demoContent ∧
    (∃ i, 1 ≤ i ∧ i ≤ 2 ∧ ∃ item ∈ demoContent i, entryName item = some "ubuntu") ∧
    (∃ item id, (allEntries demoContent 2).find? (hasName "ubuntu") = some item ∧
      entryID item = some id ∧
      (ReadCatalogItemByName demoUnmarshalViews demoClient [] "ubuntu").1
        = Outcome.ret id none) ∧
    (ReadCatalogItemByName demoUnmarshalViews demoClient [] "ubuntu").1
      = Outcome.ret "id-ubuntu-1" none :=
  have hex : ∃ i, 1 ≤ i ∧ i ≤ 2 ∧ ∃ item ∈ demoContent i, entryName item = some "ubuntu" :=
    ⟨2, by decide, by decide, demoEntry "ubuntu" "id-ubuntu-2", by simp [demoContent], rfl⟩
  ⟨demo_serves, hex,
    ReadCatalogItemByName_returns_first_match demoUnmarshalViews demoClient [] 2 demoContent
      "ubuntu" demo_serves hex,
    by decide⟩

theorem ReadCatalogItemByName_notFound_iff_witness :
    Serves demoUnmarshalViews demoClient [] 2 demoContent ∧
    ((ReadCatalogItemByName demoUnmarshalViews demoClient [] "debian").1
        = Outcome.ret "" (some (notFoundError "debian")) ↔
      ∀ i, 1 ≤ i → i ≤ 2 → ∀ item ∈ demoContent i, entryName item ≠ some "debian") ∧
    (ReadCatalogItemByName demoUnmarshalViews demoClient [] "debian").1
      = Outcome.ret "" (some "Catalog item, debian not found") :=
  ⟨demo_serves,
    ReadCatalogItemByName_notFound_iff demoUnmarshalViews demoClient [] 2 demoContent
      "debian" demo_serves,
    by decide⟩

theorem ReadCatalogItemByName_fetch_sequence_witness :
    Serves demoUnmarshalViews demoClient [] 2 demoContent ∧
    ((∃ k : Nat,
      (ReadCatalogItemByName demoUnmarshalViews demoClient [] "debian").2
        = [] ++ catalogFetch demoClient 1 :: (pageNumbers k).map (catalogFetch demoClient) ∧
      ((1 ≤ k ∧ (k : Int) ≤ 2 ∧
          (∀ i : Int, 1 ≤ i → i < k → ∀ item ∈ demoContent i, entryName item ≠ some "debian") ∧
          ∃ item ∈ demoContent k, entryName item = some "debian") ∨
        (k = (2 : Int).toNat ∧
          (∀ i : Int, 1 ≤ i → i ≤ 2 → ∀ item ∈ demoContent i, entryName item ≠ some "debian") ∧
          (ReadCatalogItemByName demoUnmarshalViews demoClient [] "debian").1
            = Outcome.ret "" (some (notFoundError "debian"))))) ∧
    ((2 : Int) ≤ 0 →
      ReadCatalogItemByName demoUnmarshalViews demoClient [] "debian"
        = (Outcome.ret "" (some (notFoundError "debian")), [] ++ [catalogFetch demoClient 1]))) ∧
    (ReadCatalogItemByName demoUnmarshalViews demoClient [] "debian").2
      = [catalogFetch demoClient 1, catalogFetch demoClient 1, catalogFetch demoClient 2] ∧
    (ReadCatalogItemByName demoUnmarshalViews demoClient [] "centos").2
      = [catalogFetch demoClient 1, catalogFetch demoClient 1] :=
  ⟨demo_serves,
    ReadCatalogItemByName_fetch_sequence demoUnmarshalViews demoClient [] 2 demoContent
      "debian" demo_serves,
    by decide, by decide⟩

/-- When the transport reports an error on the first fetch, `ReadCatalogItemByName`
returns the empty id with that error and makes no further call. -/
theorem ReadCatalogItemByName_first_fetch_error
    (unmarshal : Unmarshal EntitledCatalogItemViews) (c : APIClient) (h : List Call)
    (catalogName : String) (resp : Option APIResponse) (respErr : GoError)
    (hget : c.Get h (catalogPageURL c 1) = (resp, some respErr)) :
    ReadCatalogItemByName unmarshal c h catalogName
      = (Outcome.ret "" (some respErr), h ++ [catalogFetch c 1]) := by
  simp [ReadCatalogItemByName, readCatalogItemsByPage, hget, catalogFetch]

/-- When the transport reports an error on the fetch of a page inside the loop, the
loop ends there with the empty id and that error, whatever pages remain. -/
theorem scanPages_fetch_error
    (unmarshal : Unmarshal EntitledCatalogItemViews) (c : APIClient) (h : List Call)
    (catalogName : String) (page : Int) (rest : List Int) (resp : Option APIResponse)
    (respErr : GoError) (hget : c.Get h (catalogPageURL c page) = (resp, some respErr)) :
    scanPages unmarshal c catalogName (page :: rest) h
      = (Outcome.ret "" (some respErr), h ++ [catalogFetch c page]) := by
  simp [scanPages, readCatalogItemsByPage, hget, catalogFetch]

/-- Claim C3, evaluated where the code departs from it.  A page answered with a status
other than 200 and no transport error makes `readCatalogItemsByPage` return
`nil, nil`; `ReadCatalogItemByName` then dereferences the nil page and panics, on the
first fetch as well as on a fetch inside the loop.  No error is returned. -/
theorem ReadCatalogItemByName_status_not_200 :
    readCatalogItemsByPage demoUnmarshalViews (statusClient 500 200) [] 1
      = (Outcome.ret none none, [catalogFetch demoClient 1]) ∧
    ReadCatalogItemByName demoUnmarshalViews (statusClient 500 200) [] "ubuntu"
      = (Outcome.panic Panic.nilDereference, [catalogFetch demoClient 1]) ∧
    ReadCatalogItemByName demoUnmarshalViews (statusClient 200 503) [] "windows"
      = (Outcome.panic Panic.nilDereference,
          [catalogFetch demoClient 1, catalogFetch demoClient 1, catalogFetch demoClient 2]) :=
  ⟨rfl, by decide, by decide⟩

/-- Claim C10, evaluated where the code departs from it.  On a page fetched and
decoded with success whose content is not an array, or holds an entry that is not a
map, an entry without a string `name`, or an entry of the requested name without a
string `catalogItemId`, `ReadCatalogItemByName` panics on the type assertion.  No
error is returned. -/
theorem ReadCatalogItemByName_malformed_page :
    (ReadCatalogItemByName (shapeUnmarshalViews GoValue.null) demoClient [] "ubuntu").1
      = Outcome.panic Panic.typeAssertion ∧
    (ReadCatalogItemByName
        (shapeUnmarshalViews (GoValue.object [("name", GoValue.str "ubuntu")]))
        demoClient [] "ubuntu").1
      = Outcome.panic Panic.typeAssertion ∧
    (ReadCatalogItemByName
        (shapeUnmarshalViews (GoValue.array [GoValue.str "ubuntu"])) demoClient [] "ubuntu").1
      = Outcome.panic Panic.typeAssertion ∧
    (ReadCatalogItemByName
        (shapeUnmarshalViews
          (GoValue.array [GoValue.object [("catalogItemId", GoValue.str "id-ubuntu-1")]]))
        demoClient [] "ubuntu").1
      = Outcome.panic Panic.typeAssertion ∧
    (ReadCatalogItemByName
        (shapeUnmarshalViews
          (GoValue.array [GoValue.object
            [("catalogItemId", GoValue.number "42"), ("name", GoValue.str "ubuntu")]]))
        demoClient [] "ubuntu").1
      = Outcome.panic Panic.typeAssertion := by
  decide

/-! ## Lemmas on the action template engine -/

theorem lastIndexAux_eq_none (sep : Char) (l : List Char) :
    lastIndexAux sep l = none ↔ sep ∉ l := by
  induction l with
  | nil => simp [lastIndexAux]
  | cons ch rest ih =>
    cases hrest : lastIndexAux sep rest with
    | some j =>
      have hmem : sep ∈ rest := by
        by_contra hnot
        rw [ih.mpr hnot] at hrest
        cases hrest
      simp [lastIndexAux, hrest, hmem]
    | none =>
      have hnot := ih.mp hrest
      by_cases hch : ch = sep
      · simp [lastIndexAux, hrest, hch]
      · have hne : ¬ sep = ch := fun heq => hch heq.symm
        simp [lastIndexAux, hrest, hch, hnot, hne]

theorem lastIndexAux_eq_some (sep : Char) (l : List Char) (j : Nat)
    (hj : lastIndexAux sep l = some j) :
    l = l.take j ++ sep :: l.drop (j + 1) ∧ sep ∉ l.drop (j + 1) := by
  induction l generalizing j with
  | nil => simp [lastIndexAux] at hj
  | cons ch rest ih =>
    cases hrest : lastIndexAux sep rest with
    | some j1 =>
      simp only [lastIndexAux, hrest, Option.some.injEq] at hj
      subst hj
      obtain ⟨hsplit, hnot⟩ := ih j1 hrest
      refine ⟨?_, by simpa using hnot⟩
      simp only [List.take_succ_cons, List.drop_succ_cons, List.cons_append]
      rw [← hsplit]
    | none =>
      have hnot := (lastIndexAux_eq_none sep rest).mp hrest
      by_cases hch : ch = sep
      · simp only [lastIndexAux, hrest, hch, if_true, Option.some.injEq] at hj
        subst hj
        subst hch
        simpa using hnot
      · simp [lastIndexAux, hrest, hch] at hj

theorem PostResourceAction_created (marshal : Marshal ResourceActionTemplate)
    (c : APIClient) (h : List Call) (resourceID actionID : String)
    (resourceActionTemplate : ResourceActionTemplate) (resp : APIResponse)
    (hpost : c.Post h (c.BuildEncodedURL (PostActionTemplateAPI resourceID actionID) [])
      (marshal resourceActionTemplate).1 = (some resp, none))
    (hstatus : resp.StatusCode = 201) :
    (PostResourceAction marshal c h resourceID actionID resourceActionTemplate).1
      = Outcome.ret (sliceFrom resp.Location (LastIndex resp.Location '/' + 1)) none := by
  simp [PostResourceAction, hpost, hstatus]

/-! ## Claims on the action template engine -/

/-- Claim C4.  When the post of `PostResourceAction` is answered, with no transport
error, by status 201 and a `Location` holding at least one `/`, the returned request
id is the part of `Location` after its last `/`: `Location` is `pre ++ "/" ++ id`
where `id` holds no `/`, and the error is nil. -/
theorem PostResourceAction_returns_last_segment (marshal : Marshal ResourceActionTemplate)
    (c : APIClient) (h : List Call) (resourceID actionID : String)
    (resourceActionTemplate : ResourceActionTemplate) (resp : APIResponse)
    (hpost : c.Post h (c.BuildEncodedURL (PostActionTemplateAPI resourceID actionID) [])
      (marshal resourceActionTemplate).1 = (some resp, none))
    (hstatus : resp.StatusCode = 201) (hsep : '/' ∈ resp.Location.data) :
    ∃ pre id,
      (PostResourceAction marshal c h resourceID actionID resourceActionTemplate).1
        = Outcome.ret id none ∧
      resp.Location = pre ++ "/" ++ id ∧ '/' ∉ id.data := by
  rw [PostResourceAction_created marshal c h resourceID actionID resourceActionTemplate
    resp hpost hstatus]
  cases hlast : lastIndexAux '/' resp.Location.data with
  | none => exact absurd hsep ((lastIndexAux_eq_none '/' resp.Location.data).mp hlast)
  | some j =>
    obtain ⟨hsplit, hnot⟩ := lastIndexAux_eq_some '/' resp.Location.data j hlast
    refine ⟨String.mk (resp.Location.data.take j),
      String.mk (resp.Location.data.drop (j + 1)), ?_, ?_, hnot⟩
    · have hidx : ((j : Int) + 1).toNat = j + 1 := by omega
      simp [sliceFrom, LastIndex, hlast, hidx]
    · apply String.ext
      rw [String.data_append, String.data_append]
      have hslash : "/".data = ['/'] := rfl
      rw [hslash, List.append_assoc]
      exact hsplit

theorem PostResourceAction_returns_last_segment_witness :
    (postClient 201 "https://vra.example.com/catalog-service/api/consumer/requests/abc-123").Post []
        ((postClient 201
          "https://vra.example.com/catalog-service/api/consumer/requests/abc-123").BuildEncodedURL
          (PostActionTemplateAPI "res-1" "act-1") [])
        (demoMarshalAction demoActionTemplate).1
      = (some ⟨201, "",
          "https://vra.example.com/catalog-service/api/consumer/requests/abc-123"⟩, none) ∧
    (∃ pre id,
      (PostResourceAction demoMarshalAction
        (postClient 201 "https://vra.example.com/catalog-service/api/consumer/requests/abc-123")
        [] "res-1" "act-1" demoActionTemplate).1 = Outcome.ret id none ∧
      "https://vra.example.com/catalog-service/api/consumer/requests/abc-123"
        = pre ++ "/" ++ id ∧ '/' ∉ id.data) ∧
    (PostResourceAction demoMarshalAction
        (postClient 201 "https://vra.example.com/catalog-service/api/consumer/requests/abc-123")
        [] "res-1" "act-1" demoActionTemplate).1 = Outcome.ret "abc-123" none :=
  ⟨rfl,
    PostResourceAction_returns_last_segment demoMarshalAction
      (postClient 201 "https://vra.example.com/catalog-service/api/consumer/requests/abc-123")
      [] "res-1" "act-1" demoActionTemplate
      ⟨201, "", "https://vra.example.com/catalog-service/api/consumer/requests/abc-123"⟩
      rfl rfl (by decide),
    by decide⟩

/-- The status guard of `PostResourceAction` on a concrete answer: a post answered by
status 200 with no transport error returns the empty id together with a nil error. -/
theorem PostResourceAction_status_200 :
    (PostResourceAction demoMarshalAction
        (postClient 200 "https://vra.example.com/catalog-service/api/consumer/requests/abc-123")
        [] "res-1" "act-1" demoActionTemplate).1 = Outcome.ret "" none := by
  decide

/-- Claim C5, refuted as stated.  A post answered by status 201 whose `Location` holds
no `/` does not fail: the whole `Location` comes back as the request id with a nil
error, and so does the empty `Location`. -/
theorem PostResourceAction_location_without_separator :
    (PostResourceAction demoMarshalAction (postClient 201 "abc-123")
        [] "res-1" "act-1" demoActionTemplate).1 = Outcome.ret "abc-123" none ∧
    (PostResourceAction demoMarshalAction (postClient 201 "")
        [] "res-1" "act-1" demoActionTemplate).1 = Outcome.ret "" none := by
  decide

/-- Claim C5, amended.  When the post of `PostResourceAction` is answered with no
transport error: with a status other than 201 the call returns the empty string as
the request id; with status 201 and a `Location` holding no `/` (the empty `Location`
included) it returns the whole `Location` as the request id with a nil error. -/
theorem PostResourceAction_not_created_or_no_separator
    (marshal : Marshal ResourceActionTemplate)
    (c : APIClient) (h : List Call) (resourceID actionID : String)
    (resourceActionTemplate : ResourceActionTemplate) (resp : APIResponse)
    (hpost : c.Post h (c.BuildEncodedURL (PostActionTemplateAPI resourceID actionID) [])
      (marshal resourceActionTemplate).1 = (some resp, none)) :
    (resp.StatusCode ≠ 201 →
      ∃ err, (PostResourceAction marshal c h resourceID actionID resourceActionTemplate).1
        = Outcome.ret "" err) ∧
    (resp.StatusCode = 201 → '/' ∉ resp.Location.data →
      (PostResourceAction marshal c h resourceID actionID resourceActionTemplate).1
        = Outcome.ret resp.Location none) := by
  constructor
  · intro hstatus
    exact ⟨none, by simp [PostResourceAction, hpost, hstatus]⟩
  · intro hstatus hsep
    rw [PostResourceAction_created marshal c h resourceID actionID resourceActionTemplate
      resp hpost hstatus]
    have hlast := (lastIndexAux_eq_none '/' resp.Location.data).mpr hsep
    simp [sliceFrom, LastIndex, hlast]

theorem PostResourceAction_not_created_or_no_separator_witness :
    (postClient 201 "abc-123").Post []
        ((postClient 201 "abc-123").BuildEncodedURL (PostActionTemplateAPI "res-1" "act-1") [])
        (demoMarshalAction demoActionTemplate).1
      = (some ⟨201, "", "abc-123"⟩, none) ∧
    (((201 : Int) ≠ 201 →
      ∃ err, (PostResourceAction demoMarshalAction (postClient 201 "abc-123")
        [] "res-1" "act-1" demoActionTemplate).1 = Outcome.ret "" err) ∧
    ((201 : Int) = 201 → '/' ∉ "abc-123".data →
      (PostResourceAction demoMarshalAction (postClient 201 "abc-123")
        [] "res-1" "act-1" demoActionTemplate).1 = Outcome.ret "abc-123" none)) ∧
    '/' ∉ "abc-123".data :=
  ⟨rfl,
    PostResourceAction_not_created_or_no_separator demoMarshalAction (postClient 201 "abc-123")
      [] "res-1" "act-1" demoActionTemplate ⟨201, "", "abc-123"⟩ rfl,
    by decide⟩

/-! ## Lemmas on the action catalog -/

theorem decodeActions_all_ok (decode : Decode) (items : List GoValue)
    (hok : ∀ x ∈ items, ∃ a, decode x = Except.ok a) (acc : List Operation) :
    ∃ actions, decodeActions decode items acc = Outcome.ret (acc ++ actions) none ∧
      items.map decode = actions.map Except.ok := by
  induction items generalizing acc with
  | nil => exact ⟨[], by simp [decodeActions], rfl⟩
  | cons item rest ih =>
    obtain ⟨a, ha⟩ := hok item (List.mem_cons_self _ _)
    obtain ⟨actions, hrun, hmap⟩ :=
      ih (fun x hx => hok x (List.mem_cons_of_mem _ hx)) (acc ++ [a])
    refine ⟨a :: actions, ?_, ?_⟩
    · simp only [decodeActions, ha]
      rw [hrun]
      simp
    · simp [ha, hmap]

theorem decodeActions_first_error (decode : Decode) (pre : List GoValue) (bad : GoValue)
    (post : List GoValue) (err : GoError)
    (hpre : ∀ x ∈ pre, ∃ a, decode x = Except.ok a) (hbad : decode bad = Except.error err)
    (acc : List Operation) :
    decodeActions decode (pre ++ bad :: post) acc = Outcome.ret [] (some err) := by
  induction pre generalizing acc with
  | nil => simp [decodeActions, hbad]
  | cons item rest ih =>
    obtain ⟨a, ha⟩ := hpre item (List.mem_cons_self _ _)
    simp only [List.cons_append, decodeActions, ha]
    exact ih (fun x hx => hpre x (List.mem_cons_of_mem _ hx)) (acc ++ [a])

theorem exists_first_error (decode : Decode) (items : List GoValue)
    (hfail : ∃ x ∈ items, ∃ err, decode x = Except.error err) :
    ∃ pre bad post err, items = pre ++ bad :: post ∧
      (∀ x ∈ pre, ∃ a, decode x = Except.ok a) ∧ decode bad = Except.error err := by
  induction items with
  | nil =>
    obtain ⟨x, hx, _⟩ := hfail
    cases hx
  | cons item rest ih =>
    cases hitem : decode item with
    | error err => exact ⟨[], item, rest, err, rfl, by simp, hitem⟩
    | ok a =>
      obtain ⟨x, hx, e, he⟩ := hfail
      have hxrest : x ∈ rest := by
        rcases List.mem_cons.mp hx with rfl | hmem
        · rw [hitem] at he
          cases he
        · exact hmem
      obtain ⟨pre, bad, post, err, hsplit, hpre, hbad⟩ := ih ⟨x, hxrest, e, he⟩
      refine ⟨item :: pre, bad, post, err, by simp [hsplit], ?_, hbad⟩
      intro y hy
      rcases List.mem_cons.mp hy with rfl | hmem
      · exact ⟨a, hitem⟩
      · exact hpre y hmem

/-! ## Claim on the action catalog -/

/-- Claim C6.  On an action collection fetched and decoded with success,
`GetResourceActions` is all-or-nothing.  If the decoding of some entry fails, the call
returns the error of the first entry that fails, with no action, however many entries
before it decoded.  If every entry decodes, the call returns with a nil error one
`Operation` per entry, the decoded entries in the order of the response content. -/
theorem GetResourceActions_all_or_nothing (unmarshal : Unmarshal RequestResponse)
    (decode : Decode) (c : APIClient) (h : List Call) (resourceID : String)
    (resp : APIResponse) (reqResponse : RequestResponse)
    (hget : c.Get h (c.BuildEncodedURL (ResourceActions resourceID) []) = (some resp, none))
    (hbody : unmarshal resp.Body = Except.ok reqResponse) :
    ((∃ x ∈ reqResponse.Content, ∃ err, decode x = Except.error err) →
      ∃ pre bad post err, reqResponse.Content = pre ++ bad :: post ∧
        (∀ x ∈ pre, ∃ a, decode x = Except.ok a) ∧ decode bad = Except.error err ∧
        (GetResourceActions unmarshal decode c h resourceID).1
          = Outcome.ret [] (some err)) ∧
    ((∀ x ∈ reqResponse.Content, ∃ a, decode x = Except.ok a) →
      ∃ actions, (GetResourceActions unmarshal decode c h resourceID).1
          = Outcome.ret actions none ∧
        reqResponse.Content.map decode = actions.map Except.ok ∧
        actions.length = reqResponse.Content.length) := by
  have hrun : (GetResourceActions unmarshal decode c h resourceID).1
      = decodeActions decode reqResponse.Content [] := by
    simp [GetResourceActions, hget, hbody]
  constructor
  · intro hfail
    obtain ⟨pre, bad, post, err, hsplit, hpre, hbad⟩ :=
      exists_first_error decode reqResponse.Content hfail
    refine ⟨pre, bad, post, err, hsplit, hpre, hbad, ?_⟩
    rw [hrun, hsplit]
    exact decodeActions_first_error decode pre bad post err hpre hbad []
  · intro hok
    obtain ⟨actions, hdec, hmap⟩ := decodeActions_all_ok decode reqResponse.Content hok []
    refine ⟨actions, ?_, hmap, ?_⟩
    · rw [hrun, hdec]
      simp
    · have := congrArg List.length hmap
      simpa using this.symm

theorem GetResourceActions_all_or_nothing_witness :
    (bodyClient "mixed").Get []
        ((bodyClient "mixed").BuildEncodedURL (ResourceActions "res-1") [])
      = (some ⟨200, "mixed", ""⟩, none) ∧
    (((∃ x ∈ [demoAction "a-1" "Destroy", GoValue.str "Reconfigure",
          demoAction "a-3" "Scale Out"], ∃ err, demoDecode x = Except.error err) →
      ∃ pre bad post err,
        [demoAction "a-1" "Destroy", GoValue.str "Reconfigure", demoAction "a-3" "Scale Out"]
          = pre ++ bad :: post ∧
        (∀ x ∈ pre, ∃ a, demoDecode x = Except.ok a) ∧ demoDecode bad = Except.error err ∧
        (GetResourceActions demoUnmarshalActions demoDecode (bodyClient "mixed") [] "res-1").1
          = Outcome.ret [] (some err)) ∧
    ((∀ x ∈ [demoAction "a-1" "Destroy", GoValue.str "Reconfigure",
          demoAction "a-3" "Scale Out"], ∃ a, demoDecode x = Except.ok a) →
      ∃ actions,
        (GetResourceActions demoUnmarshalActions demoDecode (bodyClient "mixed") [] "res-1").1
          = Outcome.ret actions none ∧
        [demoAction "a-1" "Destroy", GoValue.str "Reconfigure",
          demoAction "a-3" "Scale Out"].map demoDecode = actions.map Except.ok ∧
        actions.length = [demoAction "a-1" "Destroy", GoValue.str "Reconfigure",
          demoAction "a-3" "Scale Out"].length)) ∧
    (GetResourceActions demoUnmarshalActions demoDecode (bodyClient "mixed") [] "res-1").1
      = Outcome.ret [] (some "expected a map") ∧
    (GetResourceActions demoUnmarshalActions demoDecode (bodyClient "actions") [] "res-1").1
      = Outcome.ret [⟨"a-1", "Destroy"⟩, ⟨"a-2", "Reconfigure"⟩] none :=
  ⟨rfl,
    GetResourceActions_all_or_nothing demoUnmarshalActions demoDecode (bodyClient "mixed") []
      "res-1" ⟨200, "mixed", ""⟩
      ⟨[demoAction "a-1" "Destroy", GoValue.str "Reconfigure", demoAction "a-3" "Scale Out"]⟩
      rfl rfl,
    by decide, by decide⟩

/-! ## Claims on the request submitter and the resource enumerator -/

/-- Claim C7, refuted as stated.  With an encoder that fails and a template whose
`CatalogItemID` is empty, `RequestCatalogItem` still performs the `Post`, of the nil
buffer, to the path built from the empty id, and returns the decoded request with a
nil error. -/
theorem RequestCatalogItem_marshal_error_ignored :
    (failingMarshalRequest emptyTemplate).2 = some "json: unsupported value" ∧
    emptyTemplate.CatalogItemID = "" ∧
    RequestCatalogItem failingMarshalRequest demoUnmarshalRequest submitClient [] emptyTemplate
      = (Outcome.ret (some ⟨"req-1", "SUBMITTED"⟩) none,
          [Call.post "/catalog-service/api/consumer/entitledCatalogItems//requests" none]) := by
  decide

/-- Claim C7, amended.  `RequestCatalogItem` discards the error of the encoder and
checks nothing about `CatalogItemID`: for every template it performs exactly one
`Post`, of whatever buffer the encoder returned, to the URL built from
`EntitledCatalogItems/<CatalogItemID>/requests`.  It returns the error of the `Post`
when the transport reports one, else the error of decoding the response body, else
the decoded request with a nil error. -/
theorem RequestCatalogItem_posts_encoder_buffer
    (marshal : Marshal CatalogItemRequestTemplate) (unmarshal : Unmarshal CatalogRequest)
    (c : APIClient) (h : List Call) (requestTemplate : CatalogItemRequestTemplate) :
    (RequestCatalogItem marshal unmarshal c h requestTemplate).2
      = h ++ [Call.post
          (c.BuildEncodedURL
            (EntitledCatalogItems ++ "/" ++ requestTemplate.CatalogItemID ++ "/requests") [])
          (marshal requestTemplate).1] ∧
    (∀ resp respErr,
      c.Post h
          (c.BuildEncodedURL
            (EntitledCatalogItems ++ "/" ++ requestTemplate.CatalogItemID ++ "/requests") [])
          (marshal requestTemplate).1 = (resp, some respErr) →
        (RequestCatalogItem marshal unmarshal c h requestTemplate).1
          = Outcome.ret none (some respErr)) ∧
    (∀ resp unmarshallErr,
      c.Post h
          (c.BuildEncodedURL
            (EntitledCatalogItems ++ "/" ++ requestTemplate.CatalogItemID ++ "/requests") [])
          (marshal requestTemplate).1 = (some resp, none) →
        unmarshal resp.Body = Except.error unmarshallErr →
        (RequestCatalogItem marshal unmarshal c h requestTemplate).1
          = Outcome.ret none (some unmarshallErr)) ∧
    (∀ resp response,
      c.Post h
          (c.BuildEncodedURL
            (EntitledCatalogItems ++ "/" ++ requestTemplate.CatalogItemID ++ "/requests") [])
          (marshal requestTemplate).1 = (some resp, none) →
        unmarshal resp.Body = Except.ok response →
        (RequestCatalogItem marshal unmarshal c h requestTemplate).1
          = Outcome.ret (some response) none) := by
  refine ⟨?_, ?_, ?_, ?_⟩
  · simp only [RequestCatalogItem]
    split
    · rfl
    · rfl
    · split <;> rfl
  · intro resp respErr hpost
    simp [RequestCatalogItem, hpost]
  · intro resp unmarshallErr hpost hbody
    simp [RequestCatalogItem, hpost, hbody]
  · intro resp response hpost hbody
    simp [RequestCatalogItem, hpost, hbody]

/-- Claim C8, refuted as stated.  On a resource listing of two pages with one resource
each, `GetRequestResourceView` for page 1 and `GetRequestResources` each make one
fetch and return the one entry of that page, not the two entries of pages 1 and 2. -/
theorem resource_listing_returns_one_page :
    (allEntries demoResourcePages 2).length = 2 ∧
    (GetRequestResourceView demoUnmarshalResourceView resourceClient [] "req-1" 1).2
      = [Call.get "/catalog-service/api/consumer/requests/req-1/resourceViews?page=1"] ∧
    (∃ view,
      (GetRequestResourceView demoUnmarshalResourceView resourceClient [] "req-1" 1).1
        = Outcome.ret (some view) none ∧
      view.Metadata.TotalPages = 2 ∧ view.Content.length = 1 ∧
      view.Content ≠ allEntries demoResourcePages 2) ∧
    (GetRequestResources demoUnmarshalResources resourceClient [] "req-1").2
      = [Call.get "/catalog-service/api/consumer/requests/req-1/resources"] ∧
    (∃ resources,
      (GetRequestResources demoUnmarshalResources resourceClient [] "req-1").1
        = Outcome.ret (some resources) none ∧
      resources.Metadata.TotalPages = 2 ∧ resources.Content.length = 1 ∧
      resources.Content ≠ allEntries demoResourcePages 2) := by
  have hlen : (allEntries demoResourcePages 2).length = 2 := by decide
  refine ⟨hlen, by decide, ⟨⟨demoResourcePages 1, ⟨2⟩⟩, rfl, rfl, by decide, ?_⟩, by decide,
    ⟨⟨demoResourcePages 1, ⟨2⟩⟩, rfl, rfl, by decide, ?_⟩⟩
  · intro heq
    have hone : (demoResourcePages 1).length = 1 := by decide
    have := congrArg List.length heq
    simp only [hlen, hone] at this
    omega
  · intro heq
    have hone : (demoResourcePages 1).length = 1 := by decide
    have := congrArg List.length heq
    simp only [hlen, hone] at this
    omega

/-- Claim C8, amended.  `GetRequestResourceView` makes exactly one `Get`, of the page
`pageID` of the resource views of the request, and when the fetch and the decoding
succeed it returns that decoded page alone; `GetRequestResources` makes exactly one
`Get`, with no page parameter, and when the fetch and the decoding succeed it returns
that decoded response alone.  Neither follows `TotalPages`. -/
theorem resource_listing_single_fetch
    (unmarshalView : Unmarshal RequestResourceView) (unmarshalResources : Unmarshal Resources)
    (c : APIClient) (h : List Call) (requestID : String) (pageID : Int) :
    ((GetRequestResourceView unmarshalView c h requestID pageID).2
        = h ++ [Call.get
            (c.BuildEncodedURL (GetRequestResourceViewAPI requestID) [("page", Itoa pageID)])] ∧
      ∀ resp view,
        c.Get h (c.BuildEncodedURL (GetRequestResourceViewAPI requestID) [("page", Itoa pageID)])
            = (some resp, none) →
          unmarshalView resp.Body = Except.ok view →
          (GetRequestResourceView unmarshalView c h requestID pageID).1
            = Outcome.ret (some view) none) ∧
    ((GetRequestResources unmarshalResources c h requestID).2
        = h ++ [Call.get (c.BuildEncodedURL (GetRequestResourcesAPI requestID) [])] ∧
      ∀ resp resources,
        c.Get h (c.BuildEncodedURL (GetRequestResourcesAPI requestID) []) = (some resp, none) →
          unmarshalResources resp.Body = Except.ok resources →
          (GetRequestResources unmarshalResources c h requestID).1
            = Outcome.ret (some resources) none) := by
  refine ⟨⟨?_, ?_⟩, ⟨?_, ?_⟩⟩
  · simp only [GetRequestResourceView]
    split
    · rfl
    · rfl
    · split <;> rfl
  · intro resp view hget hbody
    simp [GetRequestResourceView, hget, hbody]
  · simp only [GetRequestResources]
    split
    · rfl
    · rfl
    · split <;> rfl
  · intro resp resources hget hbody
    simp [GetRequestResources, hget, hbody]

end Vra7
